import Mathlib

/-!
Shallow embedding of `flask_navigate` (file `flask_navigate/__init__.py`).

The repository's core is:
  * `Pager.__iter__` — the page-window generator: iterates `num` from 1 to
    `pages`, includes `num` when one of three threshold conditions holds, and
    yields a gap marker (`None`, here `Option.none`) before an included `num`
    that is not the immediate successor of the previously included number
    (`ellipsis_at`, initialised to 0);
  * `PageState.__init__` and its properties — `total_pages`, `has_next`,
    `has_prev`, `next_page`, `prev_page`;
  * `Navigator.args` — the argument-merge over request/view key-value pairs;
  * `Navigator._parse_request_argument` — the bounded numeric parse.

Python integers are modelled as `Int`.  The `total / float(per_page)`
derivation is modelled value-exactly on IEEE-754 binary64: the int-to-float
conversions and the division round to nearest (ties to even), leaving the
float range raises `OverflowError`, and a zero divisor raises
`ZeroDivisionError`; every raised error is `Option.none`, and the errors occur
in the interpreter's evaluation order.  A yielded sequence is modelled as the
`List` of the generator's yields.  The dict built by `Navigator.args` is
modelled by its key-to-value mapping (lookup) semantics; the association
list's order is a modelling artifact, since the iteration order of a CPython 2
dict is unspecified.
-/

set_option maxRecDepth 100000

namespace FlaskNavigate

/-- The inclusion test of `Pager.__iter__` for a candidate page number `n`:
`(num <= left_threshold) or (abs(self.page - num) <= threshold) or
((self.pages - num) < right_threshold)`. -/
def includePage (page pages left thr right n : Int) : Bool :=
  decide (n ≤ left) || decide (|page - n| ≤ thr) || decide (pages - n < right)

/-- Modelled from the spec: `flask_navigate.compat` (providing `xrange`) is not
under `src/`; the spec says the generator iterates page numbers from 1 to
`total_pages` inclusive in increasing order, so `xrange(1, pages + 1)` is the
list `[1, …, pages]`, empty when `pages ≤ 0`. -/
def pageRange (pages : Int) : List Int :=
  (List.range pages.toNat).map (fun (i : Nat) => (i : Int) + 1)

/-- The loop body of `Pager.__iter__`: walk the remaining page numbers carrying
`ellipsis_at` (the last yielded page number, initially 0); an included `n`
is preceded by a gap marker when `ellipsis_at + 1 != n`. -/
def pagerLoop (page pages left thr right : Int) : List Int → Int → List (Option Int)
  | [], _ => []
  | n :: ns, ell =>
    if includePage page pages left thr right n then
      (if ell + 1 ≠ n then [none] else []) ++ some n :: pagerLoop page pages left thr right ns n
    else
      pagerLoop page pages left thr right ns ell

/-- The full sequence yielded by `Pager.__iter__` for
`Pager(page, pages, left_threshold, threshold, right_threshold)`. -/
def pagerSeq (page pages left thr right : Int) : List (Option Int) :=
  pagerLoop page pages left thr right (pageRange pages) 0

/-- Spec-side rendering of the gap rule, for comparison with `pagerSeq`:
"Track the last included page number.  Whenever an included `n` is not the
immediate successor of the last included number, emit exactly one gap marker
immediately before emitting `n`." -/
def emitWithGaps : Int → List Int → List (Option Int)
  | _, [] => []
  | prev, n :: ns => (if prev + 1 ≠ n then [none] else []) ++ some n :: emitWithGaps n ns

theorem pagerLoop_eq_emitWithGaps (page pages left thr right : Int) :
    ∀ (ns : List Int) (ell : Int),
      pagerLoop page pages left thr right ns ell
        = emitWithGaps ell (ns.filter (includePage page pages left thr right))
  | [], _ => rfl
  | n :: ns, ell => by
    by_cases h : includePage page pages left thr right n = true
    · simp [pagerLoop, List.filter_cons, h, emitWithGaps,
        pagerLoop_eq_emitWithGaps page pages left thr right ns n]
    · simp [pagerLoop, List.filter_cons, h,
        pagerLoop_eq_emitWithGaps page pages left thr right ns ell]

theorem reduceOption_emitWithGaps : ∀ (prev : Int) (l : List Int),
    (emitWithGaps prev l).reduceOption = l
  | _, [] => rfl
  | prev, n :: ns => by
    by_cases h : prev + 1 ≠ n <;>
      simp [emitWithGaps, h, List.reduceOption_cons_of_some,
        reduceOption_emitWithGaps n ns]

theorem mem_pageRange {pages x : Int} (hx : x ∈ pageRange pages) :
    1 ≤ x ∧ x ≤ pages := by
  rcases List.mem_map.mp hx with ⟨i, hi, rfl⟩
  rw [List.mem_range] at hi
  omega

theorem pageRange_pairwise (pages : Int) :
    (pageRange pages).Pairwise (· < ·) := by
  refine List.Pairwise.map _ (fun a b hab => ?_) (List.pairwise_lt_range pages.toNat)
  omega

theorem emitWithGaps_ne_nil (prev n : Int) (ns : List Int) :
    emitWithGaps prev (n :: ns) ≠ [] := by
  by_cases h : prev + 1 ≠ n <;> simp [emitWithGaps, h]

theorem getLast?_emitWithGaps : ∀ (l : List Int) (prev : Int),
    (emitWithGaps prev l).getLast? = l.getLast?.map some
  | [], _ => rfl
  | n :: ns, prev => by
    cases ns with
    | nil => by_cases h : prev + 1 ≠ n <;> simp [emitWithGaps, h]
    | cons m ms =>
      have IH := getLast?_emitWithGaps (m :: ms) n
      rw [emitWithGaps, List.getLast?_append_cons] at IH
      rw [emitWithGaps, List.getLast?_append_cons, emitWithGaps,
        ← List.cons_append, List.getLast?_append_cons, IH, List.getLast?_cons_cons]

theorem chain'_emitWithGaps : ∀ (l : List Int) (prev : Int),
    List.Chain' (fun a b => a ≠ none ∨ b ≠ none) (emitWithGaps prev l)
  | [], _ => List.chain'_nil
  | n :: ns, prev => by
    have IH := chain'_emitWithGaps ns n
    have hcons : List.Chain' (fun a b : Option Int => a ≠ none ∨ b ≠ none)
        (some n :: emitWithGaps n ns) :=
      List.chain'_cons'.mpr ⟨fun y _ => Or.inl (by simp), IH⟩
    by_cases h : prev + 1 ≠ n
    · simp only [emitWithGaps, if_pos h, List.singleton_append]
      exact List.chain'_cons.mpr ⟨Or.inr (by simp), hcons⟩
    · simpa only [emitWithGaps, if_neg h, List.nil_append] using hcons

theorem length_emitWithGaps : ∀ (l : List Int) (prev : Int),
    (emitWithGaps prev l).length ≤ 2 * l.length
  | [], _ => Nat.le_refl 0
  | n :: ns, prev => by
    have IH := length_emitWithGaps ns n
    by_cases h : prev + 1 ≠ n <;>
      simp only [emitWithGaps, if_pos h, if_neg h, List.singleton_append,
        List.nil_append, List.length_cons, List.length_append] <;>
      omega

theorem mem_emitWithGaps : ∀ {x : Int} (l : List Int) (prev : Int),
    x ∈ l → some x ∈ emitWithGaps prev l
  | x, n :: ns, prev, hx => by
    rw [emitWithGaps]
    rcases List.mem_cons.mp hx with rfl | hx
    · exact List.mem_append_right _ (List.mem_cons_self _ _)
    · exact List.mem_append_right _ (List.mem_cons_of_mem _ (mem_emitWithGaps ns n hx))

/-- C1: the page-window sequence yields, in increasing order, exactly those
integers `n` in `[1, total_pages]` satisfying one of the three threshold
conditions; every non-marker element lies in `[1, total_pages]` and, with the
markers removed, the sequence is strictly increasing. -/
theorem pager_window_exactly_filter (page pages left thr right : Int) :
    (pagerSeq page pages left thr right).reduceOption
        = (pageRange pages).filter (includePage page pages left thr right)
      ∧ List.Chain' (· < ·) ((pagerSeq page pages left thr right).reduceOption)
      ∧ ∀ x ∈ (pagerSeq page pages left thr right).reduceOption,
          1 ≤ x ∧ x ≤ pages := by
  have hfil : (pagerSeq page pages left thr right).reduceOption
      = (pageRange pages).filter (includePage page pages left thr right) := by
    rw [pagerSeq, pagerLoop_eq_emitWithGaps, reduceOption_emitWithGaps]
  refine ⟨hfil, ?_, ?_⟩
  · rw [hfil]
    exact ((pageRange_pairwise pages).sublist (List.filter_sublist _)).chain'
  · intro x hx
    rw [hfil] at hx
    exact mem_pageRange (List.mem_of_mem_filter hx)

/-- C1 (witness): at current page 3 of 3 with all thresholds 0, the window's
numbers are exactly the filtered range, and the member 3 lies in `[1, 3]`. -/
theorem pager_window_exactly_filter_witness :
    (pagerSeq 3 3 0 0 0).reduceOption = (pageRange 3).filter (includePage 3 3 0 0 0)
      ∧ ((1 : Int) ≤ 3 ∧ (3 : Int) ≤ 3) :=
  ⟨(pager_window_exactly_filter 3 3 0 0 0).1,
    (pager_window_exactly_filter 3 3 0 0 0).2.2 3 (by decide)⟩

/-- C4: a gap marker is emitted exactly when an included page number is not the
immediate successor of the previously included number (the tracker starting at
0), one marker per gap; hence no two consecutive elements are both markers. -/
theorem pager_gap_rule (page pages left thr right : Int) :
    pagerSeq page pages left thr right
        = emitWithGaps 0 ((pageRange pages).filter (includePage page pages left thr right))
      ∧ List.Chain' (fun a b => a ≠ none ∨ b ≠ none)
          (pagerSeq page pages left thr right) := by
  constructor
  · rw [pagerSeq, pagerLoop_eq_emitWithGaps]
  · rw [pagerSeq, pagerLoop_eq_emitWithGaps]
    exact chain'_emitWithGaps _ 0

/-- C5 (counterexample): with all thresholds 0, current page 3 of 3, the first
element of the page-window sequence is a gap marker, refuting "a gap marker is
never the first element". -/
theorem pager_marker_first_counterexample :
    pagerSeq 3 3 0 0 0 = [none, some 3] := by decide

/-- C5 (amended): a gap marker is never the last element of the page-window
sequence (markers are only ever emitted immediately before an included page
number); a marker can, however, be the first element. -/
theorem pager_no_trailing_marker (page pages left thr right : Int) :
    pagerSeq page pages left thr right = []
      ∨ ∃ n : Int, (pagerSeq page pages left thr right).getLast? = some (some n) := by
  rw [pagerSeq, pagerLoop_eq_emitWithGaps]
  cases hF : (pageRange pages).filter (includePage page pages left thr right) with
  | nil => exact Or.inl rfl
  | cons m ms =>
    right
    rw [getLast?_emitWithGaps]
    have h1 : (m :: ms).getLast?.isSome := by
      rw [List.getLast?_isSome]
      simp
    rcases Option.isSome_iff_exists.mp h1 with ⟨n, hn⟩
    exact ⟨n, by rw [hn]; rfl⟩

/-- C6: the page-window computation is total — it is a plain function to a
finite list, of length at most twice the page count; `total_pages = 0` (and
any non-positive page count) yields the empty sequence, for every current page
and thresholds. -/
theorem pager_total_finite (page pages left thr right : Int) :
    pagerSeq page 0 left thr right = []
      ∧ (pagerSeq page pages left thr right).length ≤ 2 * pages.toNat := by
  constructor
  · rfl
  · rw [pagerSeq, pagerLoop_eq_emitWithGaps]
    have h1 := length_emitWithGaps
      ((pageRange pages).filter (includePage page pages left thr right)) 0
    have h2 := List.length_filter_le (includePage page pages left thr right)
      (pageRange pages)
    have h3 : (pageRange pages).length = pages.toNat := by
      simp [pageRange]
    omega

/-- C10: whenever `1 ≤ current_page ≤ total_pages` and the center threshold is
non-negative, the window contains the current page itself, since
`|current_page - current_page| = 0 ≤ center_threshold`. -/
theorem pager_contains_current (page pages left thr right : Int)
    (h1 : 1 ≤ page) (h2 : page ≤ pages) (ht : 0 ≤ thr) :
    some page ∈ pagerSeq page pages left thr right := by
  rw [pagerSeq, pagerLoop_eq_emitWithGaps]
  apply mem_emitWithGaps
  apply List.mem_filter.mpr
  refine ⟨?_, ?_⟩
  · refine List.mem_map.mpr ⟨(page - 1).toNat, ?_, ?_⟩
    · rw [List.mem_range]
      omega
    · show ((page - 1).toNat : Int) + 1 = page
      omega
  · simp only [includePage, Bool.or_eq_true, decide_eq_true_eq]
    exact Or.inl (Or.inr (by rw [sub_self, abs_zero]; exact ht))

/-- C10 (witness): with current page 2 of 3 and all thresholds 0, the window
contains page 2. -/
theorem pager_contains_current_witness :
    (1 : Int) ≤ 2 ∧ (2 : Int) ≤ 3 ∧ (0 : Int) ≤ 0 ∧ some 2 ∈ pagerSeq 2 3 0 0 0 :=
  ⟨by decide, by decide, by decide,
    pager_contains_current 2 3 0 0 0 (by decide) (by decide) (by decide)⟩

/-- The state built by `PageState.__init__`; `total_pages` stores the value of
`int(ceil(total / float(per_page)))`. -/
structure PageState where
  page : Int
  per_page : Int
  total : Int
  total_pages : Int
deriving DecidableEq

/-- Floor of the base-2 logarithm, by repeated halving; the fuel (first
argument of the auxiliary) starts at `n` itself, which always covers the
`⌊log2 n⌋ ≤ n` halving steps, so this is total and exact for every `n ≥ 1`. -/
def natLog2Aux : Nat → Nat → Nat
  | 0, _ => 0
  | fuel + 1, n => if 2 ≤ n then natLog2Aux fuel (n / 2) + 1 else 0

/-- Floor of the base-2 logarithm of `n` (0 at 0). -/
def natLog2 (n : Nat) : Nat := natLog2Aux n n

/-- A finite IEEE-754 binary64 value, recorded as the exact dyadic rational
`m * 2 ^ exp` it denotes (the representation is not normalised; only the
denoted value matters). -/
structure Dyadic where
  m : Int
  exp : Int
deriving DecidableEq

/-- Whether `2 ^ c ≤ N / D` for a rational `N / D` with `N, D ≥ 1`,
by cross-multiplication. -/
def ratPow2Le (c : Int) (N D : Nat) : Bool :=
  if 0 ≤ c then decide (D * 2 ^ c.toNat ≤ N) else decide (D ≤ N * 2 ^ (-c).toNat)

/-- Round the rational `N / D` (with `D ≥ 1`) to the nearest integer, ties to
even. -/
def roundNearestEven (N D : Nat) : Nat :=
  let q := N / D
  let r := N % D
  if 2 * r < D then q
  else if D < 2 * r then q + 1
  else if q % 2 = 0 then q else q + 1

/-- Round the rational `num / den` (with `den ≥ 1`) to the nearest IEEE-754
binary64 value, ties to even: 53 significand bits at scale `e - 52` for
magnitude exponent `e ≥ -1022`, the subnormal scale `2 ^ (-1074)` below that,
and `none` (overflow) when the rounded magnitude reaches `2 ^ 1024` — the
overflow test `⌊log2 r⌋ + scale ≥ 1024` is exactly `r * 2 ^ scale ≥ 2 ^ 1024`. -/
def roundRatToDouble (num : Int) (den : Nat) : Option Dyadic :=
  if num = 0 then some ⟨0, 0⟩
  else
    let N := num.natAbs
    let c : Int := (natLog2 N : Int) - (natLog2 den : Int)
    let e : Int := if ratPow2Le c N den then c else c - 1
    let scale : Int := max (e - 52) (-1074)
    let Ns : Nat := N * (if scale ≤ 0 then 2 ^ (-scale).toNat else 1)
    let Ds : Nat := den * (if 0 ≤ scale then 2 ^ scale.toNat else 1)
    let r := roundNearestEven Ns Ds
    if 1024 ≤ (natLog2 r : Int) + scale then none
    else some ⟨if num < 0 then -(r : Int) else (r : Int), scale⟩

/-- CPython `float(n)` on an integer: correctly rounded conversion to binary64,
with `OverflowError` (`none`) when the value leaves the float range. -/
def floatOfInt (n : Int) : Option Dyadic :=
  roundRatToDouble n 1

/-- IEEE-754 binary64 division: the exact quotient of the operands' values,
correctly rounded; `none` stands for a non-finite outcome (unreachable in
`mkTotalPages`, whose divisor has magnitude at least 1). -/
def divDouble (a b : Dyadic) : Option Dyadic :=
  let e := a.exp - b.exp
  let num : Int := a.m * (if b.m < 0 then -1 else 1)
    * (if 0 ≤ e then ((2 ^ e.toNat : Nat) : Int) else 1)
  let den : Nat := b.m.natAbs * (if 0 ≤ e then 1 else 2 ^ (-e).toNat)
  roundRatToDouble num den

/-- `int(math.ceil(d))` on a finite double: `math.ceil` is exact on binary64
(the ceiling of a finite double is itself representable) and `int` converts it
exactly, so this is the mathematical ceiling of the denoted value. -/
def ceilDyadic (d : Dyadic) : Int :=
  if 0 ≤ d.exp then d.m * ((2 ^ d.exp.toNat : Nat) : Int)
  else
    let k := (-d.exp).toNat
    if 0 ≤ d.m then ((d.m.toNat + 2 ^ k - 1) / 2 ^ k : Nat)
    else -((d.m.natAbs / 2 ^ k : Nat) : Int)

/-- The `total_pages` derivation `int(ceil(total / float(per_page)))` of
`PageState.__init__`, step for step in the interpreter's order: `float(per_page)`
converts first (possible `OverflowError`), the division then converts `total`
(possible `OverflowError`), then checks the divisor (`ZeroDivisionError` when
`per_page = 0`) and divides with correct rounding, and `int(ceil(..))` takes
the exact ceiling of the resulting double.  Every raised error is `none`. -/
def mkTotalPages (total per_page : Int) : Option Int :=
  match floatOfInt per_page with
  | none => none
  | some fp =>
    match floatOfInt total with
    | none => none
    | some ft =>
      if fp.m = 0 then none
      else (divDouble ft fp).map ceilDyadic

/-- `PageState(page, per_page, total)`: construction fails (raises) exactly when
the `total_pages` division does. -/
def mkPageState (page per_page total : Int) : Option PageState :=
  (mkTotalPages total per_page).map (fun tp => ⟨page, per_page, total, tp⟩)

/-- `PageState.has_next`: `self.page < self.total_pages`. -/
def PageState.has_next (s : PageState) : Bool :=
  decide (s.page < s.total_pages)

/-- `PageState.has_prev`: `self.page > 1`. -/
def PageState.has_prev (s : PageState) : Bool :=
  decide (1 < s.page)

/-- `PageState.next_page`: `self.page + 1` when `has_next`, else `None`. -/
def PageState.next_page (s : PageState) : Option Int :=
  if s.page < s.total_pages then some (s.page + 1) else none

/-- `PageState.prev_page`: `self.page - 1` when `has_prev`, else `None`. -/
def PageState.prev_page (s : PageState) : Option Int :=
  if 1 < s.page then some (s.page - 1) else none

/-- C2 (code bug): the float detour in `int(ceil(total / float(per_page)))`
loses exactness above `2 ^ 53`: at `total = 2 ^ 53 + 1 = 9007199254740993`,
`per_page = 1` the conversion of `total` rounds to `2 ^ 53`, so the code
produces `total_pages = 9007199254740992` — below `total` itself, not the
exact ceiling `9007199254740993` that the documented invariant
`total_pages = ceil(total / per_page)` requires. -/
theorem total_pages_float_rounds :
    mkTotalPages 9007199254740993 1 = some 9007199254740992
      ∧ ¬((9007199254740993 : Int) ≤ 1 * 9007199254740992) := by
  exact ⟨by decide, by decide⟩

/-- C3: for every constructed `PageState`, `has_next` holds iff
`page < total_pages`, `has_prev` holds iff `page > 1`, `next_page` is
`page + 1` exactly when `has_next` and absent otherwise, and `prev_page` is
`page - 1` exactly when `has_prev` and absent otherwise. -/
theorem page_state_nav (page per_page total : Int) (s : PageState)
    (hs : mkPageState page per_page total = some s) :
    (s.has_next = true ↔ s.page < s.total_pages)
      ∧ (s.has_prev = true ↔ 1 < s.page)
      ∧ (s.has_next = true → s.next_page = some (s.page + 1))
      ∧ (s.has_next = false → s.next_page = none)
      ∧ (s.has_prev = true → s.prev_page = some (s.page - 1))
      ∧ (s.has_prev = false → s.prev_page = none) := by
  refine ⟨by simp [PageState.has_next], by simp [PageState.has_prev], ?_, ?_, ?_, ?_⟩
  · intro h
    rw [PageState.has_next, decide_eq_true_eq] at h
    rw [PageState.next_page, if_pos h]
  · intro h
    rw [PageState.has_next, decide_eq_false_iff_not] at h
    rw [PageState.next_page, if_neg h]
  · intro h
    rw [PageState.has_prev, decide_eq_true_eq] at h
    rw [PageState.prev_page, if_pos h]
  · intro h
    rw [PageState.has_prev, decide_eq_false_iff_not] at h
    rw [PageState.prev_page, if_neg h]

/-- C3 (witness): the state from `page=2, per_page=10, total=42` has
`total_pages = 5`, `has_next`, `has_prev`, `next_page = 3`, `prev_page = 1`. -/
theorem page_state_nav_witness :
    mkPageState 2 10 42 = some ⟨2, 10, 42, 5⟩
      ∧ ((PageState.has_next ⟨2, 10, 42, 5⟩ = true ↔ (2 : Int) < 5)
          ∧ (PageState.has_prev ⟨2, 10, 42, 5⟩ = true ↔ (1 : Int) < 2)
          ∧ (PageState.has_next ⟨2, 10, 42, 5⟩ = true
              → PageState.next_page ⟨2, 10, 42, 5⟩ = some (2 + 1))
          ∧ (PageState.has_next ⟨2, 10, 42, 5⟩ = false
              → PageState.next_page ⟨2, 10, 42, 5⟩ = none)
          ∧ (PageState.has_prev ⟨2, 10, 42, 5⟩ = true
              → PageState.prev_page ⟨2, 10, 42, 5⟩ = some (2 - 1))
          ∧ (PageState.has_prev ⟨2, 10, 42, 5⟩ = false
              → PageState.prev_page ⟨2, 10, 42, 5⟩ = none)) :=
  have he : mkPageState 2 10 42 = some ⟨2, 10, 42, 5⟩ := by decide
  ⟨he, page_state_nav 2 10 42 ⟨2, 10, 42, 5⟩ he⟩

/-- C7 (counterexample): a negative `total` does not make construction fail:
`PageState(page=1, per_page=10, total=-15)` completes and produces the
nonsensical `total_pages = -1`. -/
theorem negative_total_constructs_counterexample :
    mkPageState 1 10 (-15) = some ⟨1, 10, -15, -1⟩ := by decide

/-- C7 (amended): constructing a `PageState` with `per_page = 0` always fails
fast with an explicit error — `ZeroDivisionError` from the `total_pages`
division, or `OverflowError` first when `total` also leaves the float range;
a negative `total` does not fail (see the counterexample). -/
theorem per_page_zero_fails (page total : Int) :
    mkPageState page 0 total = none := by
  have h0 : floatOfInt 0 = some ⟨0, 0⟩ := rfl
  simp only [mkPageState, mkTotalPages, h0]
  cases h : floatOfInt total <;> simp

/-- A value of the mapping built by `Navigator.args`: a scalar string on the
first occurrence of a key, a list of strings once the key repeats. -/
inductive ArgVal where
  | scalar (v : String)
  | multi (vs : List String)
deriving DecidableEq

/-- One assignment of the `Navigator.args` loop body on a non-`page` key:
a fresh key is added to the dict; an existing scalar value becomes the
two-element list `[args[k], value]`; an existing list value is appended to.
The dict is modelled by an association list standing for its key-to-value
mapping; the list's order is a modelling artifact (the iteration order of a
CPython 2 dict is unspecified), so only lookup-level facts reflect the
program. -/
def insertArg : List (String × ArgVal) → String → String → List (String × ArgVal)
  | [], k, v => [(k, ArgVal.scalar v)]
  | (q, w) :: rest, k, v =>
    if q = k then
      (q, match w with
          | ArgVal.scalar s => ArgVal.multi [s, v]
          | ArgVal.multi ws => ArgVal.multi (ws ++ [v])) :: rest
    else
      (q, w) :: insertArg rest k v

/-- The `Navigator.args` loop body: `if k == 'page': continue`, else insert. -/
def argsStep (acc : List (String × ArgVal)) (p : String × String) :
    List (String × ArgVal) :=
  if p.1 = "page" then acc else insertArg acc p.1 p.2

/-- `Navigator.args`: fold `list(request_args) + list(view_args)` into the
dict, starting from `args = {}`; the resulting mapping is to be read through
`List.lookup` only. -/
def navigatorArgs (requestArgs viewArgs : List (String × String)) :
    List (String × ArgVal) :=
  (requestArgs ++ viewArgs).foldl argsStep []

/-- Spec-side: the values paired with key `k` among the pairs, in order. -/
def occurrences (k : String) (ps : List (String × String)) : List String :=
  (ps.filter (fun p => p.1 = k)).map Prod.snd

/-- Spec-side: the value the merge should attach to a key, from its list of
occurrences — "first occurrence stores a scalar string; a second occurrence
converts the stored value to a two-element list and appends; further
occurrences append to that list". -/
def specVal : List String → Option ArgVal
  | [] => none
  | [v] => some (ArgVal.scalar v)
  | vs => some (ArgVal.multi vs)

/-- Fold a run of occurrence values into a stored value, one `Navigator.args`
update at a time. -/
def combineOcc : Option ArgVal → List String → Option ArgVal
  | w, [] => w
  | none, v :: vs => combineOcc (some (ArgVal.scalar v)) vs
  | some (ArgVal.scalar s), v :: vs => combineOcc (some (ArgVal.multi [s, v])) vs
  | some (ArgVal.multi ws), v :: vs => combineOcc (some (ArgVal.multi (ws ++ [v]))) vs

theorem lookup_insertArg_self : ∀ (l : List (String × ArgVal)) (k v : String),
    (insertArg l k v).lookup k
      = some (match l.lookup k with
              | none => ArgVal.scalar v
              | some (ArgVal.scalar s) => ArgVal.multi [s, v]
              | some (ArgVal.multi ws) => ArgVal.multi (ws ++ [v]))
  | [], k, v => by simp [insertArg, List.lookup]
  | (q, w) :: rest, k, v => by
    by_cases hq : q = k
    · subst hq
      cases w <;> simp [insertArg, List.lookup]
    · have hb : (k == q) = false := beq_eq_false_iff_ne.mpr (fun h => hq h.symm)
      simp [insertArg, hq, List.lookup, hb, lookup_insertArg_self rest k v]

theorem lookup_insertArg_ne : ∀ (l : List (String × ArgVal)) (k v k' : String),
    k' ≠ k → (insertArg l k v).lookup k' = l.lookup k'
  | [], k, v, k', hk => by
    have hb : (k' == k) = false := beq_eq_false_iff_ne.mpr hk
    simp [insertArg, List.lookup, hb]
  | (q, w) :: rest, k, v, k', hk => by
    by_cases hq : q = k
    · subst hq
      have hb : (k' == q) = false := beq_eq_false_iff_ne.mpr hk
      simp [insertArg, List.lookup, hb]
    · by_cases hq' : k' = q
      · subst hq'
        simp [insertArg, hq, List.lookup]
      · have hb : (k' == q) = false := beq_eq_false_iff_ne.mpr hq'
        simp [insertArg, hq, List.lookup, hb, lookup_insertArg_ne rest k v k' hk]

theorem lookup_foldl_argsStep : ∀ (ps : List (String × String))
    (acc : List (String × ArgVal)) (k : String), k ≠ "page" →
    ((ps.foldl argsStep acc).lookup k) = combineOcc (acc.lookup k) (occurrences k ps)
  | [], acc, k, _ => by simp [occurrences, combineOcc]
  | ⟨pk, pv⟩ :: rest, acc, k, hk => by
    by_cases hp : pk = "page"
    · have hpk : ¬ pk = k := by rw [hp]; exact fun h => hk h.symm
      have hocc : occurrences k ((pk, pv) :: rest) = occurrences k rest := by
        simp [occurrences, List.filter_cons, hpk]
      have hstep : argsStep acc (pk, pv) = acc := by simp [argsStep, hp]
      rw [List.foldl_cons, hstep, hocc]
      exact lookup_foldl_argsStep rest acc k hk
    · have hstep : argsStep acc (pk, pv) = insertArg acc pk pv := by
        simp [argsStep, hp]
      by_cases hpk : pk = k
      · subst hpk
        have hocc : occurrences pk ((pk, pv) :: rest) = pv :: occurrences pk rest := by
          simp [occurrences, List.filter_cons]
        have IH := lookup_foldl_argsStep rest (insertArg acc pk pv) pk hk
        rw [lookup_insertArg_self] at IH
        rw [List.foldl_cons, hstep, hocc, IH]
        rcases hl : acc.lookup pk with _ | w
        · simp [hl, combineOcc]
        · cases w <;> simp [hl, combineOcc]
      · have hocc : occurrences k ((pk, pv) :: rest) = occurrences k rest := by
          simp [occurrences, List.filter_cons, hpk]
        have IH := lookup_foldl_argsStep rest (insertArg acc pk pv) k hk
        rw [lookup_insertArg_ne acc pk pv k (fun h => hpk h.symm)] at IH
        rw [List.foldl_cons, hstep, hocc]
        exact IH

theorem lookup_page_foldl : ∀ (ps : List (String × String))
    (acc : List (String × ArgVal)), acc.lookup "page" = none →
    (ps.foldl argsStep acc).lookup "page" = none
  | [], _, h => h
  | p :: rest, acc, h => by
    by_cases hp : p.1 = "page"
    · simp only [List.foldl_cons, argsStep, if_pos hp]
      exact lookup_page_foldl rest acc h
    · simp only [List.foldl_cons, argsStep, if_neg hp]
      refine lookup_page_foldl rest _ ?_
      rw [lookup_insertArg_ne acc p.1 p.2 "page" (fun hh => hp hh.symm)]
      exact h

theorem combineOcc_multi : ∀ (vs ws : List String),
    combineOcc (some (ArgVal.multi ws)) vs = some (ArgVal.multi (ws ++ vs))
  | [], ws => by simp [combineOcc]
  | v :: vs, ws => by
    rw [combineOcc, combineOcc_multi vs (ws ++ [v]), List.append_assoc]
    rfl

theorem combineOcc_none_eq_specVal : ∀ (vs : List String),
    combineOcc none vs = specVal vs
  | [] => rfl
  | [v] => rfl
  | v₁ :: v₂ :: vs => by
    rw [combineOcc, combineOcc, combineOcc_multi]
    rfl

/-- Lookup-level characterisation of the merge of request pairs and view
pairs: the key `page` is absent, and every other key maps to its single value
as a scalar string when it occurs once, and to the list of all its values, in
pair order, when it occurs more than once.  These are the facts about
`Navigator.args` that do not depend on the unspecified iteration order of a
CPython 2 dict. -/
theorem navigator_args_lookup (requestArgs viewArgs : List (String × String)) :
    (navigatorArgs requestArgs viewArgs).lookup "page" = none
      ∧ ∀ k : String, k ≠ "page" →
          (navigatorArgs requestArgs viewArgs).lookup k
            = specVal (occurrences k (requestArgs ++ viewArgs)) := by
  refine ⟨lookup_page_foldl _ [] rfl, ?_⟩
  intro k hk
  rw [navigatorArgs, lookup_foldl_argsStep _ [] k hk]
  exact combineOcc_none_eq_specVal _

/-- Strip leading and trailing whitespace, as Python `int()` tolerates. -/
def trimChars (cs : List Char) : List Char :=
  ((cs.dropWhile Char.isWhitespace).reverse.dropWhile Char.isWhitespace).reverse

/-- Decimal digits to their value; `none` unless non-empty and all digits. -/
def digitsToNat (cs : List Char) : Option Nat :=
  if cs ≠ [] ∧ cs.all Char.isDigit then
    some (cs.foldl (fun n c => 10 * n + (c.toNat - 48)) 0)
  else none

/-- Python `int(s)` on a string: optional surrounding whitespace, an optional
sign, then a non-empty run of decimal digits; `none` models the `ValueError`
raised on anything else. -/
def pythonInt (s : String) : Option Int :=
  match trimChars s.toList with
  | [] => none
  | c :: rest =>
    if c = '-' then (digitsToNat rest).map (fun n => -(n : Int))
    else if c = '+' then (digitsToNat rest).map (fun n => (n : Int))
    else (digitsToNat (c :: rest)).map (fun n => (n : Int))

/-- `Navigator._parse_request_argument`: convert the raw request value (absent
raw input falls back to the default, on which `int` is the identity when it is
an integer and raises `TypeError` when it is `None`); a conversion failure or
a result below 1 yields the default. -/
def parse_request_argument (raw : Option String) (default : Option Int) :
    Option Int :=
  match raw with
  | none => default
  | some s =>
    match pythonInt s with
    | none => default
    | some v => if v < 1 then default else some v

/-- C9: the bounded parse returns the parsed integer when conversion succeeds
with a result of at least 1, and returns the default — without raising — when
conversion fails, when the result is below 1, or when the raw value is
absent. -/
theorem parse_request_argument_spec (s : String) (default : Option Int) :
    (∀ v : Int, pythonInt s = some v → 1 ≤ v →
        parse_request_argument (some s) default = some v)
      ∧ (pythonInt s = none → parse_request_argument (some s) default = default)
      ∧ (∀ v : Int, pythonInt s = some v → v < 1 →
          parse_request_argument (some s) default = default)
      ∧ parse_request_argument none default = default := by
  refine ⟨?_, ?_, ?_, rfl⟩
  · intro v hv h1
    simp only [parse_request_argument, hv]
    exact if_neg (by omega)
  · intro hv
    simp only [parse_request_argument, hv]
  · intro v hv hlt
    simp only [parse_request_argument, hv]
    exact if_pos hlt

/-- C9 (witness): `"42"` parses to 42; `"bar"` fails conversion and yields the
default 1; `"-1"` converts to a value below 1 and yields the default 1. -/
theorem parse_request_argument_witness :
    parse_request_argument (some "42") (some 1) = some 42
      ∧ parse_request_argument (some "bar") (some 1) = some 1
      ∧ parse_request_argument (some "-1") (some 1) = some 1 :=
  ⟨(parse_request_argument_spec "42" (some 1)).1 42 (by decide) (by decide),
    (parse_request_argument_spec "bar" (some 1)).2.1 (by decide),
    (parse_request_argument_spec "-1" (some 1)).2.2.1 (-1) (by decide) (by decide)⟩

end FlaskNavigate
